import Mathlib

/-!
Verification of the libgeosuitepvt PVT-file text parser.

The development shallowly embeds the parsing routines of
`src/libgeosuitepvt/parser.py` (class PVTParser) and the data classes of
`src/libgeosuitepvt/models.py` into Lean.  Strings are modelled as lists of
characters; Python floats are modelled as exact rationals (the source only
compares against decimally-written literals, so no rounding behaviour is
relied upon); Python `None` is modelled by `Option`.

Modelling notes, spelled out where they matter:
* `str.strip`/`str.splitlines` are modelled over the ASCII whitespace and
  line-break characters; `str.lower`/`str.isalnum` over ASCII case folding,
  which covers every input the claims quantify over or evaluate.
* the Python builtin `float(str)` is modelled by `pyFloatOfChars`: optional
  surrounding whitespace, an optional sign, then either a case-insensitive
  "inf"/"infinity"/"nan" word or a decimal literal (digits with at most one
  dot and an optional exponent, with underscores permitted only between
  digits, as CPython accepts).
* `datetime.strptime` with the two fixed formats of the source is modelled
  by `strptimeYmdHm`, following the digit patterns CPython compiles those
  formats to, plus calendar validation by the `datetime` constructor;
  `datetime.fromisoformat` is modelled on its core naive forms
  (`YYYY-MM-DD`, optionally a single separator character and
  `HH[:MM[:SS]]`).  No claim depends on the exotic forms left out.
-/

namespace GeoPVT

/-! ## Character and list-of-characters utilities -/

/-- ASCII whitespace, the characters `str.strip()` removes on the inputs in
scope. -/
def isPyWs (c : Char) : Bool :=
  c == ' ' || c == '\t' || c == '\n' || c == '\r' || c == '\x0b' || c == '\x0c'

/-- `str.lstrip()` on a list of characters. -/
def lstrip (cs : List Char) : List Char := cs.dropWhile isPyWs

/-- `str.rstrip()` on a list of characters. -/
def rstrip (cs : List Char) : List Char := (cs.reverse.dropWhile isPyWs).reverse

/-- `str.strip()` on a list of characters. -/
def strip (cs : List Char) : List Char := rstrip (lstrip cs)

/-- Python `s.split(sep)` for a single-character separator: keeps empty
pieces, and the empty string yields one empty piece. -/
def splitOnChar (sep : Char) : List Char → List (List Char)
  | [] => [[]]
  | a :: rest =>
      let r := splitOnChar sep rest
      if a = sep then [] :: r
      else
        match r with
        | [] => [[a]]
        | h :: t => (a :: h) :: t

/-- Python `s.split(":", 1)` on a string known to contain the separator:
the piece before the first colon and the piece after it. -/
def splitFirstColon : List Char → List Char × List Char
  | [] => ([], [])
  | a :: rest =>
      if a = ':' then ([], rest)
      else
        let r := splitFirstColon rest
        (a :: r.1, r.2)

/-- Python `s.rfind(c)`: index of the last occurrence, `-1` if absent. -/
def rfindIdx (cs : List Char) (c : Char) : Int :=
  match cs with
  | [] => -1
  | a :: rest =>
      let r := rfindIdx rest c
      if 0 ≤ r then r + 1 else if a = c then 0 else -1

/-- Python `s.startswith(pre)`. -/
def beginsWith (cs pre : List Char) : Bool := cs.take pre.length == pre

/-- `PVTParser._normalize_key`: lowercase, then keep only alphanumerics. -/
def normalize_key (cs : List Char) : List Char :=
  (cs.map Char.toLower).filter Char.isAlphanum

/-- Python `str.splitlines()` over `\n`, `\r\n` and `\r`: no trailing empty
piece for a trailing line break, and the empty string gives no lines. -/
def splitlinesPy : List Char → List (List Char)
  | [] => []
  | a :: t =>
      if a = '\r' then
        match t with
        | [] => [[]]
        | b :: t2 => if b = '\n' then [] :: splitlinesPy t2 else [] :: splitlinesPy (b :: t2)
      else if a = '\n' then [] :: splitlinesPy t
      else
        match splitlinesPy t with
        | [] => [[a]]
        | h :: t2 => (a :: h) :: t2

/-! ## The float model: `PVTParser._coerce_float` and Python `float(str)` -/

/-- The value classes a Python `float(...)` call can produce. -/
inductive PyFloat where
  | finite (q : ℚ)
  | infinite (negSign : Bool)
  | notANumber
deriving DecidableEq, Repr

/-- Numeric value of a decimal digit character. -/
def digitVal (c : Char) : Nat := c.toNat - 48

/-- Consume a maximal run of decimal digits, accumulating their value and
count, and return the remaining characters. -/
def takeDigitsAux : Nat → Nat → List Char → Nat × Nat × List Char
  | acc, n, [] => (acc, n, [])
  | acc, n, c :: cs =>
      if c.isDigit then takeDigitsAux (acc * 10 + digitVal c) (n + 1) cs
      else (acc, n, c :: cs)

/-- Exponent digits: at least one digit and nothing after them. -/
def expDigits (sgn : Int) (cs : List Char) : Option Int :=
  if (takeDigitsAux 0 0 cs).2.1 ≠ 0 ∧ (takeDigitsAux 0 0 cs).2.2 = [] then
    some (sgn * (takeDigitsAux 0 0 cs).1)
  else none

/-- The optional exponent tail of a Python float literal: either nothing, or
`e`/`E`, an optional sign and digits ending the string. -/
def parseExpPart (cs : List Char) : Option Int :=
  match cs with
  | [] => some 0
  | a :: t =>
      if a = 'e' ∨ a = 'E' then
        match t with
        | [] => none
        | b :: t2 =>
            if b = '+' then expDigits 1 t2
            else if b = '-' then expDigits (-1) t2
            else expDigits 1 (b :: t2)
      else none

/-- Exact rational value of a decimal literal with integer part `ip`,
fraction digits worth `fp` over `fpn` places, and decimal exponent `ex`. -/
def qOfParts (ip fp fpn : Nat) (ex : Int) : ℚ :=
  let m : Int := (ip : Int) * 10 ^ fpn + fp
  let e : Int := ex - fpn
  if 0 ≤ e then ((m * 10 ^ e.toNat : Int) : ℚ)
  else ((m : Int) : ℚ) / (((10 : Nat) ^ (-e).toNat : Nat) : ℚ)

/-- After the integer digits, a literal without a fraction: the integer
part must be non-empty and only an exponent may remain. -/
def parseNumTail (ip ipn : Nat) (rest : List Char) : Option ℚ :=
  if ipn = 0 then none
  else
    match parseExpPart rest with
    | some e => some (qOfParts ip 0 0 e)
    | none => none

/-- After the dot: fraction digits (integer and fraction digits may not
both be empty) and then only an exponent may remain. -/
def parseFracTail (ip ipn : Nat) (r2 : List Char) : Option ℚ :=
  if ipn + (takeDigitsAux 0 0 r2).2.1 = 0 then none
  else
    match parseExpPart (takeDigitsAux 0 0 r2).2.2 with
    | some e => some (qOfParts ip (takeDigitsAux 0 0 r2).1 (takeDigitsAux 0 0 r2).2.1 e)
    | none => none

/-- A Python decimal float literal (no sign, no underscores, no surrounding
whitespace): digits, at most one dot with at least one digit on some side,
and an optional exponent. -/
def parseNumber (cs : List Char) : Option ℚ :=
  match (takeDigitsAux 0 0 cs).2.2 with
  | [] => parseNumTail (takeDigitsAux 0 0 cs).1 (takeDigitsAux 0 0 cs).2.1 []
  | a :: r2 =>
      if a = '.' then parseFracTail (takeDigitsAux 0 0 cs).1 (takeDigitsAux 0 0 cs).2.1 r2
      else parseNumTail (takeDigitsAux 0 0 cs).1 (takeDigitsAux 0 0 cs).2.1 (a :: r2)

/-- CPython's rule for underscores in numeric literals: every underscore
must sit between two digits. -/
def underscoresOk : List Char → Bool
  | [] => true
  | ['_'] => false
  | '_' :: _ => false
  | [_] => true
  | a :: '_' :: b :: rest => a.isDigit && b.isDigit && underscoresOk (b :: rest)
  | _ :: rest => underscoresOk rest

/-- Negate when the parsed sign was a minus. -/
def applySign (neg : Bool) (q : ℚ) : ℚ := if neg then -q else q

/-- The body of a Python float string after the optional sign: an
"inf"/"infinity"/"nan" word (case-insensitive) or a decimal literal. -/
def parseBody (neg : Bool) (cs : List Char) : Option PyFloat :=
  if cs.map Char.toLower = "inf".data ∨ cs.map Char.toLower = "infinity".data then
    some (PyFloat.infinite neg)
  else if cs.map Char.toLower = "nan".data then some PyFloat.notANumber
  else if underscoresOk cs then
    match parseNumber (cs.filter (fun c => c ≠ '_')) with
    | some q => some (PyFloat.finite (applySign neg q))
    | none => none
  else none

/-- An optional leading sign before the float body. -/
def parseSignedFloat (cs : List Char) : Option PyFloat :=
  match cs with
  | [] => parseBody false []
  | a :: t =>
      if a = '+' then parseBody false t
      else if a = '-' then parseBody true t
      else parseBody false (a :: t)

/-- Model of the Python builtin `float(s)` on a string: tolerate surrounding
whitespace, then parse a signed float body. -/
def pyFloatOfChars (cs : List Char) : Option PyFloat :=
  parseSignedFloat (strip cs)

/-- Replace every comma by a dot, the `cleaned.replace(",", ".")` step. -/
def commaToDot (c : Char) : Char := if c = ',' then '.' else c

/-- The locale cleanup of `PVTParser._coerce_float`: with both separators
present the one with the later last occurrence is the decimal separator and
the other is stripped; a comma alone becomes a dot. -/
def cleanNumeric (cs : List Char) : List Char :=
  if (',' ∈ cs) ∧ ('.' ∈ cs) then
    if rfindIdx cs ',' > rfindIdx cs '.' then
      (cs.filter (fun c => c ≠ '.')).map commaToDot
    else cs.filter (fun c => c ≠ ',')
  else if (',' ∈ cs) ∧ ('.' ∉ cs) then cs.map commaToDot
  else cs

/-- `PVTParser._coerce_float` on the values the text path feeds it (`None`
or a string): `None` and parse failures give `None`, and a parsed value
that is not finite gives `None`. -/
def coerce_float : Option (List Char) → Option ℚ
  | none => none
  | some v =>
      match pyFloatOfChars (cleanNumeric (strip v)) with
      | some (PyFloat.finite q) => some q
      | _ => none

/-! ## The datetime model -/

/-- A naive Python `datetime` (no timezone; the source never builds
fractional seconds from the formats it tries, so microseconds are omitted). -/
structure PyDateTime where
  year : Nat
  month : Nat
  day : Nat
  hour : Nat
  minute : Nat
  second : Nat
deriving DecidableEq, Repr

/-- Gregorian leap year, as `datetime` validates it. -/
def isLeapYear (y : Nat) : Bool :=
  y % 4 = 0 && (y % 100 ≠ 0 || y % 400 = 0)

/-- Days in a month, as `datetime` validates it. -/
def daysInMonth (y m : Nat) : Nat :=
  if m = 2 then (if isLeapYear y then 29 else 28)
  else if m = 4 ∨ m = 6 ∨ m = 9 ∨ m = 11 then 30
  else 31

/-- The `datetime(...)` constructor: validates its fields, raising
(modelled as `none`) on an impossible date. -/
def mkDateTime (y mo d h mi s : Nat) : Option PyDateTime :=
  if 1 ≤ y ∧ y ≤ 9999 ∧ 1 ≤ mo ∧ mo ≤ 12 ∧ 1 ≤ d ∧ d ≤ daysInMonth y mo
      ∧ h ≤ 23 ∧ mi ≤ 59 ∧ s ≤ 59
  then some { year := y, month := mo, day := d, hour := h, minute := mi, second := s }
  else none

/-- Exactly four digits (the `%Y` pattern). -/
def take4Digits : List Char → Option (Nat × List Char)
  | a :: b :: c :: d :: rest =>
      if a.isDigit && b.isDigit && c.isDigit && d.isDigit then
        some (((digitVal a * 10 + digitVal b) * 10 + digitVal c) * 10 + digitVal d, rest)
      else none
  | _ => none

/-- Exactly two digits (the zero-padded fields of ISO strings). -/
def take2Digits : List Char → Option (Nat × List Char)
  | a :: b :: rest =>
      if a.isDigit && b.isDigit then some (digitVal a * 10 + digitVal b, rest)
      else none
  | _ => none

/-- One or two digits as strptime's `%m`/`%d`/`%H`/`%M`/`%S` patterns match
them: a two-digit run must have value in `[lo, hi]`, a single digit must be
at least `lo`.  Because every field is followed by a non-digit literal (or
the end), this committed rule agrees with the regex backtracking CPython
performs for these formats. -/
def take2or1 (lo hi : Nat) : List Char → Option (Nat × List Char)
  | [] => none
  | [a] => if a.isDigit ∧ lo ≤ digitVal a then some (digitVal a, []) else none
  | a :: b :: rest =>
      if a.isDigit then
        if b.isDigit then
          let v := digitVal a * 10 + digitVal b
          if lo ≤ v ∧ v ≤ hi then some (v, rest) else none
        else if lo ≤ digitVal a then some (digitVal a, b :: rest) else none
      else none

/-- Require one specific character next. -/
def expectChar (c : Char) : List Char → Option (List Char)
  | [] => none
  | a :: rest => if a = c then some rest else none

/-- `datetime.strptime(value, "%Y-%m-%d %H:%M")`, and with `":%S"` appended
when `withSec` is set; the whole string must be consumed. -/
def strptimeYmdHm (withSec : Bool) (cs : List Char) : Option PyDateTime := do
  let (y, r1) ← take4Digits cs
  let r2 ← expectChar '-' r1
  let (mo, r3) ← take2or1 1 12 r2
  let r4 ← expectChar '-' r3
  let (d, r5) ← take2or1 1 31 r4
  let r6 ← expectChar ' ' r5
  let (h, r7) ← take2or1 0 23 r6
  let r8 ← expectChar ':' r7
  let (mi, r9) ← take2or1 0 59 r8
  if withSec then
    let r10 ← expectChar ':' r9
    let (s, r11) ← take2or1 0 59 r10
    if r11 = [] then mkDateTime y mo d h mi s else none
  else
    if r9 = [] then mkDateTime y mo d h mi 0 else none

/-- Modelled core of `datetime.fromisoformat`: `YYYY-MM-DD`, optionally one
separator character and `HH[:MM[:SS]]`.  The fractional-second, compact and
timezone forms are left out; no claim exercises them. -/
def fromisoChars (cs : List Char) : Option PyDateTime := do
  let (y, r1) ← take4Digits cs
  let r2 ← expectChar '-' r1
  let (mo, r3) ← take2Digits r2
  let r4 ← expectChar '-' r3
  let (d, r5) ← take2Digits r4
  match r5 with
  | [] => mkDateTime y mo d 0 0 0
  | _ :: r6 =>
    let (h, r7) ← take2Digits r6
    match r7 with
    | [] => mkDateTime y mo d h 0 0
    | _ =>
      let r8 ← expectChar ':' r7
      let (mi, r9) ← take2Digits r8
      match r9 with
      | [] => mkDateTime y mo d h mi 0
      | _ =>
        let r10 ← expectChar ':' r9
        let (s, r11) ← take2Digits r10
        if r11 = [] then mkDateTime y mo d h mi s else none

/-- `PVTParser._coerce_datetime` on a string: a fromisoformat attempt,
`None` on failure. -/
def coerce_datetime (cs : List Char) : Option PyDateTime := fromisoChars cs

/-- `PVTParser._parse_datetime_value`: `None` for a falsy value, then the
two explicit formats on the stripped string, then the ISO fallback on the
unstripped string. -/
def parse_datetime_value : Option (List Char) → Option PyDateTime
  | none => none
  | some cs =>
      if cs = [] then none
      else
        match strptimeYmdHm false (strip cs) with
        | some dt => some dt
        | none =>
            match strptimeYmdHm true (strip cs) with
            | some dt => some dt
            | none => coerce_datetime cs

/-- `PVTParser._parse_datetime_parts`: both parts must be non-empty
strings; they are stripped and joined with a single space. -/
def parse_datetime_parts (d t : List Char) : Option PyDateTime :=
  if d = [] ∨ t = [] then none
  else parse_datetime_value (some (strip d ++ ' ' :: strip t))

/-! ## Data model (`models.py`) -/

/-- `PiezometerMetadata`. -/
structure PiezometerMetadata where
  investigation_point : String
  series_number : Option String
  reading_time : Option PyDateTime
  installation_depth : Option ℚ
  input_filename : Option String
deriving DecidableEq, Repr

/-- `PiezometerReading`.  The dataclass annotates `reading_time` as
non-optional but Python does not enforce type hints, so the field is
modelled as optional and the non-nullness is proved about the parser. -/
structure PiezometerReading where
  reading_time : Option PyDateTime
  pressure_mh2o : Option ℚ
  temperature_c : Option ℚ
  battery_pct : Option ℚ
deriving DecidableEq, Repr

/-- `ParsedPiezometer`. -/
structure ParsedPiezometer where
  metadata : PiezometerMetadata
  readings : List PiezometerReading
deriving DecidableEq, Repr

/-! ## Path helpers (`pathlib.Path(...).name` / `.stem`, POSIX flavour) -/

/-- `Path(p).name`: the final component, ignoring trailing slashes. -/
def pathNameChars (p : String) : List Char :=
  ((p.data.reverse.dropWhile (fun c => c = '/')).takeWhile (fun c => c ≠ '/')).reverse

/-- `Path(p).stem`: the name without its extension; a dot that starts the
name or ends it is not an extension separator. -/
def pathStem (p : String) : List Char :=
  let n := pathNameChars p
  let i := rfindIdx n '.'
  if 1 ≤ i ∧ i + 1 < (n.length : Int) then n.take i.toNat else n

/-! ## Metadata-line parsing (`PVTParser._parse_metadata_line`) -/

/-- One step of filling the key→value dict: a token without a colon is
ignored; otherwise split at the first colon, normalize the key, strip the
value.  The entry is consed on the front, so a repeated key shadows the
earlier entry exactly as a Python dict assignment overwrites it. -/
def mdStep (m : List (List Char × List Char)) (part : List Char) :
    List (List Char × List Char) :=
  if ':' ∈ part then
    let kv := splitFirstColon part
    (normalize_key kv.1, strip kv.2) :: m
  else m

/-- `dict.get`: the most recent binding of the key, if any. -/
def dictGet (m : List (List Char × List Char)) (k : List Char) : Option (List Char) :=
  match m.find? (fun e => e.1 == k) with
  | some e => some e.2
  | none => none

/-- The key→value mapping a metadata line produces: split on commas, strip
each token, drop empty tokens, then fill the dict. -/
def metaValues (line : List Char) : List (List Char × List Char) :=
  (((splitOnChar ',' line).map strip).filter (fun p => p ≠ [])).foldl mdStep []

/-- Python `x or y` for an optional string `x` and a string `y`: an absent
or empty (falsy) `x` yields `y`. -/
def orFalsyStr (a : Option (List Char)) (b : List Char) : List Char :=
  match a with
  | some v => if v = [] then b else v
  | none => b

/-- Python `x or y` for two optional strings: an absent or empty `x`
yields `y`. -/
def orFalsyOpt (a b : Option (List Char)) : Option (List Char) :=
  match a with
  | some v => if v = [] then b else some v
  | none => b

/-- `PVTParser._parse_metadata_line`. -/
def parse_metadata_line (line : List Char) (path : String) : PiezometerMetadata :=
  { investigation_point :=
      String.mk (orFalsyStr (dictGet (metaValues line) ("measurepoint".data)) (pathStem path)),
    series_number := (dictGet (metaValues line) ("serienumber".data)).map String.mk,
    reading_time := parse_datetime_value (dictGet (metaValues line) ("readingtime".data)),
    installation_depth :=
      coerce_float (orFalsyOpt (dictGet (metaValues line) ("installationdepthm".data))
        (dictGet (metaValues line) ("installationdepth".data))),
    input_filename := some (String.mk (pathNameChars path)) }

/-! ## Text-file parsing (`PVTParser._parse_text_file`) -/

/-- The metadata line: the first line with non-whitespace content,
stripped; empty when no such line exists. -/
def metaLineOf (lines : List (List Char)) : List Char :=
  match lines.find? (fun l => !(strip l).isEmpty) with
  | some l => strip l
  | none => []

/-- Header detection for a given header marker: the stripped, lowercased
line must start with it (the source's marker is "date"). -/
def isHeaderLine (mark : List Char) (l : List Char) : Bool :=
  beginsWith ((strip l).map Char.toLower) mark

/-- Index of the first header line, if any. -/
def findHeaderIdx (mark : List Char) (lines : List (List Char)) : Option Nat :=
  lines.findIdx? (isHeaderLine mark)

/-- Where data rows start, given the header index: one past the header,
plus one more when the next line exists, strips to something non-empty, and
that stripped text contains a parenthesis or starts with a tab character
(the source tests `startswith` on the stripped line). -/
def dataStartFrom (lines : List (List Char)) (h : Nat) : Nat :=
  let d := h + 1
  if d < lines.length then
    let u := strip (lines.getD d [])
    if u ≠ [] ∧ ('(' ∈ u ∨ beginsWith u ("\t".data) = true) then d + 1 else d
  else d

/-- One data row: a blank line or a line with fewer than two tab-separated
fields contributes nothing; a row whose first two fields yield no timestamp
contributes nothing; otherwise fields 2..4, when present, are
numerically coerced. -/
def rowToReading (line : List Char) : Option PiezometerReading :=
  if strip line = [] then none
  else if (splitOnChar '\t' line).length < 2 then none
  else
    match parse_datetime_parts ((splitOnChar '\t' line).getD 0 [])
        ((splitOnChar '\t' line).getD 1 []) with
    | none => none
    | some t =>
        some { reading_time := some t,
               pressure_mh2o :=
                 if 2 < (splitOnChar '\t' line).length then
                   coerce_float (some ((splitOnChar '\t' line).getD 2 []))
                 else none,
               temperature_c :=
                 if 3 < (splitOnChar '\t' line).length then
                   coerce_float (some ((splitOnChar '\t' line).getD 3 []))
                 else none,
               battery_pct :=
                 if 4 < (splitOnChar '\t' line).length then
                   coerce_float (some ((splitOnChar '\t' line).getD 4 []))
                 else none }

/-- The row loop: readings are appended in file order. -/
def processRows (ls : List (List Char)) : List PiezometerReading :=
  ls.foldl
    (fun acc line =>
      match rowToReading line with
      | some r => acc ++ [r]
      | none => acc)
    []

/-- `PVTParser._parse_text_file` for a given header marker, on decoded file
content (the permissive decode never fails, so content is just a string). -/
def parseTextFileWith (mark : List Char) (content path : String) : ParsedPiezometer :=
  let lines := splitlinesPy content.data
  let md := parse_metadata_line (metaLineOf lines) path
  match findHeaderIdx mark lines with
  | none => { metadata := md, readings := [] }
  | some h => { metadata := md, readings := processRows (lines.drop (dataStartFrom lines h)) }

/-- `PVTParser._parse_text_file` with the class's header marker "date". -/
def parse_text_file (content path : String) : ParsedPiezometer :=
  parseTextFileWith ("date".data) content path

/-- The data lines of a file: everything from the computed data start on;
none when no header line exists. -/
def dataLinesOf (content : String) : List (List Char) :=
  let lines := splitlinesPy content.data
  match findHeaderIdx ("date".data) lines with
  | none => []
  | some h => lines.drop (dataStartFrom lines h)

/-- The metadata key→value mapping of a file's metadata line. -/
def metaValuesOf (content : String) : List (List Char × List Char) :=
  metaValues (metaLineOf (splitlinesPy content.data))

/-! ## The public operation (`PVTParser.parse` and module-level `parse`) -/

/-- The only attribute the parser object carries: the class-level header
marker (`_HEADER_PREFIX = "date"`).  The source mutates nothing else and
stores nothing per call. -/
structure PVTParserState where
  headerMark : String
deriving DecidableEq, Repr

/-- The `parse` method, with the object's state threaded explicitly: it
reads the header marker, wraps the single file result in a list, and
returns the object state unchanged (the method body assigns no
attribute). -/
def parseMethod (st : PVTParserState) (content path : String) :
    PVTParserState × List ParsedPiezometer :=
  (st, [parseTextFileWith st.headerMark.data content path])

/-- The `parse` entry point over the result of the file read:
`Path.read_text` may fail (I/O error, propagated), while decoding is
permissive (`errors="ignore"`) and content processing is total. -/
def readThenParse (r : Except String String) (path : String) :
    Except String (List ParsedPiezometer) :=
  match r with
  | Except.error e => Except.error e
  | Except.ok content => Except.ok [parse_text_file content path]

/-! ## Sample file contents used by the witnesses -/

/-- A minimal valid file: metadata, header, one two-field data row. -/
def sampleTwoField : String := "MeasurePoint: A\nDate\tTime\n2023-05-01\t10:00"

/-- A file whose units row starts with a tab and holds no parenthesis. -/
def sampleUnitsTab : String :=
  "MeasurePoint: BH-1\nDate\tTime\tPressure\n\t\tm\tC\t%\n2023-05-01\t10:00\t1,5"

/-- A thoroughly malformed file: a metadata line without colons, a data
row with an unparsable date, and a row of empty fields. -/
def sampleGarbage : String := "Garbage ;; no colon, ???\nDate\tTime\tP\nnotadate\tx\t1,2,3\n\t\t\t"

/-- A file whose metadata line has no measure-point token. -/
def sampleNoMeasure : String := "Foo: 1\nX"

/-- A file whose measure-point token has an empty value. -/
def sampleEmptyMeasure : String := "MeasurePoint: ,\nDate\tTime"

/-! ## Supporting lemmas about stripping -/

lemma dropWhile_dropWhile (p : Char → Bool) (l : List Char) :
    (l.dropWhile p).dropWhile p = l.dropWhile p := by
  induction l with
  | nil => rfl
  | cons a t ih =>
      rw [List.dropWhile_cons]
      by_cases h : p a
      · simp only [h, if_true, ih]
      · simp only [h, if_false, List.dropWhile_cons, Bool.false_eq_true]

lemma lstrip_lstrip (l : List Char) : lstrip (lstrip l) = lstrip l :=
  dropWhile_dropWhile isPyWs l

lemma rstrip_rstrip (l : List Char) : rstrip (rstrip l) = rstrip l := by
  simp [rstrip, List.reverse_reverse, dropWhile_dropWhile]

lemma rstrip_eq_nil_imp_lstrip (l : List Char) (h : rstrip l = []) : lstrip l = [] := by
  unfold rstrip at h
  rw [List.reverse_eq_nil_iff, List.dropWhile_eq_nil_iff] at h
  unfold lstrip
  rw [List.dropWhile_eq_nil_iff]
  intro x hx
  exact h x (List.mem_reverse.mpr hx)

lemma rstrip_cons (a : Char) (t : List Char) :
    rstrip (a :: t)
      = if rstrip t = [] then (if isPyWs a then [] else [a]) else a :: rstrip t := by
  unfold rstrip
  rw [List.reverse_cons, List.dropWhile_append]
  by_cases h : (t.reverse.dropWhile isPyWs).isEmpty
  · rw [if_pos h]
    rw [List.isEmpty_iff] at h
    rw [h]
    simp only [List.reverse_nil, if_true, List.dropWhile_cons, List.dropWhile_nil]
    by_cases ha : isPyWs a
    · simp [ha]
    · simp [ha]
  · rw [if_neg h]
    rw [List.isEmpty_iff] at h
    rw [if_neg (by simpa using h)]
    simp [List.reverse_append]

lemma rstrip_lstrip (l : List Char) : rstrip (lstrip l) = lstrip (rstrip l) := by
  induction l with
  | nil => rfl
  | cons a t ih =>
      by_cases h : isPyWs a
      · rw [lstrip, List.dropWhile_cons, if_pos h, rstrip_cons]
        by_cases h2 : rstrip t = []
        · rw [if_pos h2, if_pos h]
          have h3 : lstrip t = [] := rstrip_eq_nil_imp_lstrip t h2
          show rstrip (lstrip t) = lstrip []
          rw [h3]
          rfl
        · rw [if_neg h2]
          show rstrip (List.dropWhile isPyWs t) = lstrip (a :: rstrip t)
          rw [lstrip, List.dropWhile_cons, if_pos h]
          exact ih
      · rw [lstrip, List.dropWhile_cons, if_neg h, rstrip_cons]
        by_cases h2 : rstrip t = []
        · rw [if_pos h2, if_neg h]
          show [a] = lstrip [a]
          rw [lstrip, List.dropWhile_cons, if_neg h]
        · rw [if_neg h2]
          show a :: rstrip t = lstrip (a :: rstrip t)
          rw [lstrip, List.dropWhile_cons, if_neg h]

lemma strip_idem (l : List Char) : strip (strip l) = strip l := by
  show rstrip (lstrip (rstrip (lstrip l))) = rstrip (lstrip l)
  rw [← rstrip_lstrip (lstrip l), lstrip_lstrip, rstrip_rstrip]

/-! ## Supporting lemmas about character counts and membership -/

lemma count_dropWhile (p : Char → Bool) (c : Char) (hc : p c = false) (l : List Char) :
    (l.dropWhile p).count c = l.count c := by
  induction l with
  | nil => rfl
  | cons a t ih =>
      rw [List.dropWhile_cons]
      by_cases h : p a
      · have hne : (a == c) = false := by
          apply beq_false_of_ne
          intro he
          rw [he, hc] at h
          exact Bool.noConfusion h
        rw [if_pos h, ih, List.count_cons, hne]
        simp
      · rw [if_neg h]

lemma count_strip (c : Char) (hc : isPyWs c = false) (l : List Char) :
    (strip l).count c = l.count c := by
  show ((((l.dropWhile isPyWs).reverse).dropWhile isPyWs).reverse).count c = l.count c
  rw [List.count_reverse, count_dropWhile isPyWs c hc, List.count_reverse,
    count_dropWhile isPyWs c hc]

lemma mem_strip (c : Char) (hc : isPyWs c = false) (l : List Char) :
    c ∈ strip l ↔ c ∈ l := by
  rw [← List.count_pos_iff, ← List.count_pos_iff, count_strip c hc]

lemma count_dot_map_commaToDot (l : List Char) :
    (l.map commaToDot).count '.' = l.count ',' + l.count '.' := by
  induction l with
  | nil => rfl
  | cons a t ih =>
      rw [List.map_cons, List.count_cons, List.count_cons, List.count_cons, ih]
      by_cases h : a = ','
      · subst h
        have e1 : commaToDot ',' = '.' := rfl
        rw [e1]
        rw [show (('.' : Char) == '.') = true from by decide,
          show ((',' : Char) == ',') = true from by decide,
          show ((',' : Char) == '.') = false from by decide]
        simp only [if_true, Bool.false_eq_true, if_false]
        omega
      · by_cases h2 : a = '.'
        · subst h2
          have e1 : commaToDot '.' = '.' := rfl
          rw [e1]
          rw [show (('.' : Char) == '.') = true from by decide,
            show (('.' : Char) == ',') = false from by decide]
          simp only [if_true, Bool.false_eq_true, if_false]
          omega
        · have e1 : commaToDot a = a := if_neg h
          rw [e1, beq_false_of_ne h, beq_false_of_ne h2]
          simp

lemma comma_notMem_map_commaToDot (l : List Char) : ',' ∉ l.map commaToDot := by
  intro h
  rcases List.mem_map.mp h with ⟨a, _, ha⟩
  by_cases h2 : a = ','
  · subst h2
    exact absurd ha (by decide)
  · rw [commaToDot, if_neg h2] at ha
    exact h2 ha

/-! ## Supporting lemmas about the float parser -/

lemma takeDigitsAux_count (c : Char) (hc : c.isDigit = false) :
    ∀ (cs : List Char) (acc n : Nat),
      ((takeDigitsAux acc n cs).2.2).count c = cs.count c := by
  intro cs
  induction cs with
  | nil => intro acc n; rfl
  | cons a t ih =>
      intro acc n
      show ((if a.isDigit then takeDigitsAux (acc * 10 + digitVal a) (n + 1) t
          else (acc, n, a :: t)).2.2).count c = (a :: t).count c
      by_cases h : a.isDigit
      · rw [if_pos h, ih]
        have hne : (a == c) = false := by
          apply beq_false_of_ne
          intro he
          rw [he, hc] at h
          exact Bool.noConfusion h
        rw [List.count_cons, hne]
        simp
      · rw [if_neg h]

lemma expDigits_count (c : Char) (hc : c.isDigit = false) (sgn : Int) (cs : List Char)
    (e : Int) (h : expDigits sgn cs = some e) : cs.count c = 0 := by
  unfold expDigits at h
  split_ifs at h with h2
  rw [← takeDigitsAux_count c hc cs 0 0, h2.2]
  rfl

lemma parseExpPart_count (cs : List Char) (e : Int) (h : parseExpPart cs = some e) :
    cs.count '.' = 0 := by
  cases cs with
  | nil => rfl
  | cons a t =>
      have h2 : (if a = 'e' ∨ a = 'E' then
          (match t with
            | [] => (none : Option Int)
            | b :: t2 =>
                if b = '+' then expDigits 1 t2
                else if b = '-' then expDigits (-1) t2
                else expDigits 1 (b :: t2))
          else none) = some e := h
      by_cases ha : a = 'e' ∨ a = 'E'
      · rw [if_pos ha] at h2
        have hane : (a == '.') = false := by
          rcases ha with h1 | h1 <;> rw [h1] <;> decide

        cases t with
        | nil => exact absurd h2 (by simp)
        | cons b t2 =>
            have h3 : (if b = '+' then expDigits 1 t2
                else if b = '-' then expDigits (-1) t2
                else expDigits 1 (b :: t2)) = some e := h2
            rw [List.count_cons, List.count_cons, hane]
            split_ifs at h3 with hb hb2
            · have := expDigits_count '.' (by decide) 1 t2 e h3
              rw [this, hb]
              decide
            · have := expDigits_count '.' (by decide) (-1) t2 e h3
              rw [this, hb2]
              decide
            · have := expDigits_count '.' (by decide) 1 (b :: t2) e h3
              rw [List.count_cons] at this
              simp only [Bool.false_eq_true, if_false]
              omega
      · rw [if_neg ha] at h2
        exact absurd h2 (by simp)

lemma parseNumTail_count (ip ipn : Nat) (rest : List Char) (q : ℚ)
    (h : parseNumTail ip ipn rest = some q) : rest.count '.' = 0 := by
  unfold parseNumTail at h
  split_ifs at h
  rcases hp : parseExpPart rest with _ | e
  · rw [hp] at h
    exact absurd h (by simp)
  · exact parseExpPart_count rest e hp

lemma parseFracTail_count (ip ipn : Nat) (r2 : List Char) (q : ℚ)
    (h : parseFracTail ip ipn r2 = some q) : r2.count '.' = 0 := by
  unfold parseFracTail at h
  split_ifs at h
  rcases hp : parseExpPart (takeDigitsAux 0 0 r2).2.2 with _ | e
  · rw [hp] at h
    exact absurd h (by simp)
  · have := parseExpPart_count _ e hp
    rw [← takeDigitsAux_count '.' (by decide) r2 0 0, this]

lemma parseNumber_count (cs : List Char) (q : ℚ) (h : parseNumber cs = some q) :
    cs.count '.' ≤ 1 := by
  unfold parseNumber at h
  have key : ((takeDigitsAux 0 0 cs).2.2).count '.' = cs.count '.' :=
    takeDigitsAux_count '.' (by decide) cs 0 0
  rcases hEq : (takeDigitsAux 0 0 cs).2.2 with _ | ⟨a, r2⟩
  · rw [hEq] at key
    simp at key
    omega
  · rw [hEq] at h key
    have h2 : (if a = '.' then
        parseFracTail (takeDigitsAux 0 0 cs).1 (takeDigitsAux 0 0 cs).2.1 r2
        else parseNumTail (takeDigitsAux 0 0 cs).1 (takeDigitsAux 0 0 cs).2.1 (a :: r2))
        = some q := h
    by_cases ha : a = '.'
    · rw [if_pos ha] at h2
      have hz := parseFracTail_count _ _ _ _ h2
      rw [List.count_cons, hz] at key
      subst ha
      rw [show (('.' : Char) == '.') = true from by decide] at key
      simp at key
      omega
    · rw [if_neg ha] at h2
      have hz := parseNumTail_count _ _ _ _ h2
      omega

lemma parseBody_finite_count (neg : Bool) (cs : List Char) (q : ℚ)
    (h : parseBody neg cs = some (PyFloat.finite q)) : cs.count '.' ≤ 1 := by
  unfold parseBody at h
  split_ifs at h with h1 h2 h3
  · exact absurd h (by simp)
  · exact absurd h (by simp)
  · rcases hp : parseNumber (cs.filter fun c => c ≠ '_') with _ | q2
    · rw [hp] at h
      exact absurd h (by simp)
    · have hn := parseNumber_count _ _ hp
      have hcf : (cs.filter fun c => c ≠ '_').count '.' = cs.count '.' :=
        List.count_filter (by decide)
      omega

lemma parseSignedFloat_finite_count (cs : List Char) (q : ℚ)
    (h : parseSignedFloat cs = some (PyFloat.finite q)) : cs.count '.' ≤ 1 := by
  cases cs with
  | nil => simp
  | cons a t =>
      have h2 : (if a = '+' then parseBody false t
          else if a = '-' then parseBody true t
          else parseBody false (a :: t)) = some (PyFloat.finite q) := h
      split_ifs at h2 with h1 hm
      · have hb := parseBody_finite_count _ _ _ h2
        subst h1
        rw [List.count_cons, show (('+' : Char) == '.') = false from by decide]
        simp only [Bool.false_eq_true, if_false]
        omega
      · have hb := parseBody_finite_count _ _ _ h2
        subst hm
        rw [List.count_cons, show (('-' : Char) == '.') = false from by decide]
        simp only [Bool.false_eq_true, if_false]
        omega
      · exact parseBody_finite_count _ _ _ h2

lemma pyFloat_not_finite_of_two_dots (cs : List Char) (h2 : 2 ≤ cs.count '.') (q : ℚ) :
    pyFloatOfChars cs ≠ some (PyFloat.finite q) := by
  intro hq
  have hle := parseSignedFloat_finite_count _ _ hq
  rw [count_strip '.' (by decide)] at hle
  omega

/-! ## Supporting lemmas about the locale cleanup -/

lemma cleanNumeric_no_comma (l : List Char) (h : ',' ∉ l) : cleanNumeric l = l := by
  unfold cleanNumeric
  rw [if_neg (fun hc => h hc.1), if_neg (fun hc => h hc.1)]

/-- On a string without commas, the coercion is just the float parse
filtered to finite values. -/
lemma coerce_eq_of_no_comma (a : List Char) (h : ',' ∉ a) :
    coerce_float (some a)
      = match pyFloatOfChars a with
        | some (PyFloat.finite q) => some q
        | _ => none := by
  have h2 : ',' ∉ strip a := fun hm => h ((mem_strip ',' (by decide) a).mp hm)
  show (match pyFloatOfChars (cleanNumeric (strip a)) with
    | some (PyFloat.finite q) => some q
    | _ => none) = _
  rw [cleanNumeric_no_comma _ h2]
  have h3 : pyFloatOfChars (strip a) = pyFloatOfChars a := by
    unfold pyFloatOfChars
    rw [strip_idem]
  rw [h3]

lemma isPyWs_commaToDot (c : Char) : isPyWs (commaToDot c) = isPyWs c := by
  by_cases h : c = ','
  · subst h
    rfl
  · rw [commaToDot, if_neg h]

lemma dropWhile_map_commaToDot (l : List Char) :
    (l.map commaToDot).dropWhile isPyWs = (l.dropWhile isPyWs).map commaToDot := by
  induction l with
  | nil => rfl
  | cons a t ih =>
      rw [List.map_cons, List.dropWhile_cons, List.dropWhile_cons, isPyWs_commaToDot]
      by_cases h : isPyWs a
      · rw [if_pos h, if_pos h, ih]
      · rw [if_neg h, if_neg h, List.map_cons]

lemma strip_map_commaToDot (l : List Char) :
    strip (l.map commaToDot) = (strip l).map commaToDot := by
  show ((((l.map commaToDot).dropWhile isPyWs).reverse.dropWhile isPyWs)).reverse
      = ((((l.dropWhile isPyWs).reverse.dropWhile isPyWs)).reverse).map commaToDot
  rw [dropWhile_map_commaToDot, ← List.map_reverse, dropWhile_map_commaToDot,
    ← List.map_reverse]

/-! ## Supporting lemmas about metadata tokenization -/

lemma splitOnChar_no_sep (sep : Char) (l : List Char) (h : sep ∉ l) :
    splitOnChar sep l = [l] := by
  induction l with
  | nil => rfl
  | cons a t ih =>
      have ha : a ≠ sep := fun he => h (he ▸ List.mem_cons_self a t)
      have ht : sep ∉ t := fun hm => h (List.mem_cons_of_mem a hm)
      show (if a = sep then [] :: splitOnChar sep t
          else match splitOnChar sep t with
            | [] => [[a]]
            | h :: t2 => (a :: h) :: t2) = [a :: t]
      rw [if_neg ha, ih ht]

lemma splitFirstColon_append (k v : List Char) (h : ':' ∉ k) :
    splitFirstColon (k ++ ':' :: v) = (k, v) := by
  induction k with
  | nil =>
      show (if ':' = ':' then (([] : List Char), v)
          else (':' :: (splitFirstColon v).1, (splitFirstColon v).2)) = ([], v)
      rw [if_pos rfl]
  | cons a t ih =>
      have ha : a ≠ ':' := fun he => h (he ▸ List.mem_cons_self a t)
      have ht : ':' ∉ t := fun hm => h (List.mem_cons_of_mem a hm)
      show (if a = ':' then ([], t ++ ':' :: v)
          else (a :: (splitFirstColon (t ++ ':' :: v)).1, (splitFirstColon (t ++ ':' :: v)).2))
          = (a :: t, v)
      rw [if_neg ha, ih ht]

lemma lstrip_append_colon (k v : List Char) :
    lstrip (k ++ ':' :: v) = lstrip k ++ ':' :: v := by
  show (k ++ ':' :: v).dropWhile isPyWs = k.dropWhile isPyWs ++ ':' :: v
  rw [List.dropWhile_append]
  by_cases h : (k.dropWhile isPyWs).isEmpty
  · rw [if_pos h]
    rw [List.isEmpty_iff] at h
    rw [h, List.nil_append, List.dropWhile_cons]
    rw [if_neg (by decide : ¬isPyWs ':' = true)]
  · rw [if_neg h]

lemma rstrip_append_cons (x v : List Char) (c : Char) (hc : isPyWs c = false) :
    rstrip (x ++ c :: v) = x ++ c :: rstrip v := by
  show ((x ++ c :: v).reverse.dropWhile isPyWs).reverse = _
  rw [List.reverse_append, List.reverse_cons, List.append_assoc, List.dropWhile_append]
  by_cases h : (v.reverse.dropWhile isPyWs).isEmpty
  · rw [if_pos h]
    rw [List.isEmpty_iff] at h
    have hs : ([c] ++ x.reverse).dropWhile isPyWs = [c] ++ x.reverse := by
      rw [List.singleton_append, List.dropWhile_cons, if_neg (by rw [hc]; exact Bool.noConfusion)]
    rw [hs, List.singleton_append, List.reverse_cons, List.reverse_reverse]
    have hv : rstrip v = [] := by
      show (v.reverse.dropWhile isPyWs).reverse = []
      rw [h]
      rfl
    rw [hv]
  · rw [if_neg h, List.reverse_append, List.reverse_append, List.reverse_reverse,
      List.reverse_singleton, List.append_assoc, List.singleton_append]
    rfl

lemma strip_around_colon (k v : List Char) :
    strip (k ++ ':' :: v) = lstrip k ++ ':' :: rstrip v := by
  show rstrip (lstrip (k ++ ':' :: v)) = _
  rw [lstrip_append_colon, rstrip_append_cons _ _ _ (by decide)]

lemma strip_rstrip (v : List Char) : strip (rstrip v) = strip v := by
  show rstrip (lstrip (rstrip v)) = rstrip (lstrip v)
  rw [← rstrip_lstrip v, rstrip_rstrip]

lemma ws_toLower_not_alnum (c : Char) (h : isPyWs c = true) :
    (c.toLower).isAlphanum = false := by
  unfold isPyWs at h
  simp only [Bool.or_eq_true, beq_iff_eq] at h
  rcases h with ((((h1 | h1) | h1) | h1) | h1) | h1 <;> subst h1 <;> decide

lemma normalize_key_lstrip (k : List Char) :
    normalize_key (lstrip k) = normalize_key k := by
  induction k with
  | nil => rfl
  | cons a t ih =>
      by_cases h : isPyWs a
      · rw [lstrip, List.dropWhile_cons, if_pos h]
        show normalize_key (List.dropWhile isPyWs t) = _
        rw [show List.dropWhile isPyWs t = lstrip t from rfl, ih]
        show normalize_key t = normalize_key (a :: t)
        unfold normalize_key
        rw [List.map_cons, List.filter_cons, ws_toLower_not_alnum a h]
        simp
      · rw [lstrip, List.dropWhile_cons, if_neg h]

lemma mem_lstrip_sub (c : Char) (l : List Char) (h : c ∈ lstrip l) : c ∈ l :=
  ((List.dropWhile_suffix isPyWs).sublist).mem h

lemma metaValues_single_token (k v : List Char) (hk : ':' ∉ k) (hkc : ',' ∉ k)
    (hvc : ',' ∉ v) :
    metaValues (k ++ ':' :: v) = [(normalize_key k, strip v)] := by
  have hnc : ',' ∉ k ++ ':' :: v := by
    intro hm
    rcases List.mem_append.mp hm with hm1 | hm1
    · exact hkc hm1
    · rcases List.mem_cons.mp hm1 with hm2 | hm2
      · exact absurd hm2.symm (by decide)
      · exact hvc hm2
  unfold metaValues
  rw [splitOnChar_no_sep ',' _ hnc]
  rw [List.map_singleton, strip_around_colon]
  have hne : lstrip k ++ ':' :: rstrip v ≠ [] := by
    intro he
    exact absurd (List.append_eq_nil.mp he).2 (by simp)
  rw [show List.filter (fun p => decide (p ≠ [])) [lstrip k ++ ':' :: rstrip v]
      = [lstrip k ++ ':' :: rstrip v] from by
    rw [List.filter_cons, if_pos (decide_eq_true hne)]
    rfl]
  show mdStep [] (lstrip k ++ ':' :: rstrip v) = _
  unfold mdStep
  have hmem : ':' ∈ lstrip k ++ ':' :: rstrip v :=
    List.mem_append.mpr (Or.inr (List.mem_cons_self _ _))
  rw [if_pos hmem]
  have hk2 : ':' ∉ lstrip k := fun hm => hk (mem_lstrip_sub ':' k hm)
  rw [splitFirstColon_append _ _ hk2]
  show [(normalize_key (lstrip k), strip (rstrip v))] = _
  rw [normalize_key_lstrip, strip_rstrip]

/-! ## Supporting lemmas about the row loop -/

lemma processRows_foldl (ls : List (List Char)) :
    ∀ acc : List PiezometerReading,
      ls.foldl
        (fun acc line =>
          match rowToReading line with
          | some r => acc ++ [r]
          | none => acc)
        acc = acc ++ ls.filterMap rowToReading := by
  induction ls with
  | nil => intro acc; simp
  | cons l t ih =>
      intro acc
      rw [List.foldl_cons, ih, List.filterMap_cons]
      rcases hl : rowToReading l with _ | r
      · rfl
      · simp

lemma processRows_eq_filterMap (ls : List (List Char)) :
    processRows ls = ls.filterMap rowToReading := by
  unfold processRows
  rw [processRows_foldl]
  rfl

lemma rowToReading_some_time (line : List Char) (r : PiezometerReading)
    (h : rowToReading line = some r) : r.reading_time ≠ none := by
  unfold rowToReading at h
  split_ifs at h
  all_goals
    rcases hp : parse_datetime_parts ((splitOnChar '\t' line).getD 0 [])
        ((splitOnChar '\t' line).getD 1 []) with _ | t
  all_goals rw [hp] at h
  all_goals try exact Option.noConfusion h
  all_goals simp only [Option.some.injEq] at h
  all_goals subst h
  all_goals simp

lemma parse_text_file_metadata (content path : String) :
    (parse_text_file content path).metadata
      = parse_metadata_line (metaLineOf (splitlinesPy content.data)) path := by
  show (parseTextFileWith ("date".data) content path).metadata = _
  unfold parseTextFileWith
  rcases hE : findHeaderIdx ("date".data) (splitlinesPy content.data) with _ | hIdx <;>
    simp [hE]

lemma parse_text_file_readings (content path : String) :
    (parse_text_file content path).readings = (dataLinesOf content).filterMap rowToReading := by
  show (parseTextFileWith ("date".data) content path).readings = _
  unfold parseTextFileWith dataLinesOf
  rcases hE : findHeaderIdx ("date".data) (splitlinesPy content.data) with _ | hIdx <;>
    simp [hE, processRows_eq_filterMap]

/-! ## The claims -/

/-- C1: the numeric coercion handles locale separators — with both ',' and
'.' present, the separator whose last occurrence is later is the decimal
separator and the other is stripped as a thousands separator (so
"1.234,56" and "1,234.56" both coerce to 1234.56); a lone ',' is the
decimal separator ("12,5" → 12.5); a null input, an unparsable string such
as "abc", and non-finite parses such as "NaN" or "Infinity" all yield null;
the coercion is a total function, never an exception. -/
theorem C1_coerce_float_locale :
    (coerce_float (some "1.234,56".data) = some (30864/25 : ℚ))
  ∧ (coerce_float (some "1,234.56".data) = some (30864/25 : ℚ))
  ∧ (coerce_float (some "12,5".data) = some (25/2 : ℚ))
  ∧ (coerce_float none = none)
  ∧ (coerce_float (some "abc".data) = none)
  ∧ (coerce_float (some "NaN".data) = none)
  ∧ (coerce_float (some "Infinity".data) = none)
  ∧ (∀ v : List Char, strip v = v → ',' ∈ v → '.' ∈ v →
      rfindIdx v ',' > rfindIdx v '.' →
      coerce_float (some v)
        = coerce_float (some ((v.filter (fun c => c ≠ '.')).map commaToDot)))
  ∧ (∀ v : List Char, strip v = v → ',' ∈ v → '.' ∈ v →
      rfindIdx v '.' > rfindIdx v ',' →
      coerce_float (some v) = coerce_float (some (v.filter (fun c => c ≠ ',')))) := by
  refine ⟨?_, ?_, ?_, rfl, rfl, rfl, rfl, ?_, ?_⟩
  · show some (qOfParts 1234 56 2 0) = some (30864/25 : ℚ)
    simp only [Option.some.injEq]
    norm_num [qOfParts, Int.toNat]
  · show some (qOfParts 1234 56 2 0) = some (30864/25 : ℚ)
    simp only [Option.some.injEq]
    norm_num [qOfParts, Int.toNat]
  · show some (qOfParts 12 5 1 0) = some (25/2 : ℚ)
    simp only [Option.some.injEq]
    norm_num [qOfParts, Int.toNat]
  · intro v hs hc hd hgt
    have hA : cleanNumeric (strip v) = (v.filter (fun c => c ≠ '.')).map commaToDot := by
      rw [hs]
      unfold cleanNumeric
      rw [if_pos ⟨hc, hd⟩, if_pos hgt]
    have hnc : ',' ∉ (v.filter (fun c => c ≠ '.')).map commaToDot :=
      comma_notMem_map_commaToDot _
    show (match pyFloatOfChars (cleanNumeric (strip v)) with
        | some (PyFloat.finite q) => some q
        | _ => none)
      = coerce_float (some ((v.filter (fun c => c ≠ '.')).map commaToDot))
    rw [hA, coerce_eq_of_no_comma _ hnc]
  · intro v hs hc hd hlt
    have hA : cleanNumeric (strip v) = v.filter (fun c => c ≠ ',') := by
      rw [hs]
      unfold cleanNumeric
      rw [if_pos ⟨hc, hd⟩, if_neg (by omega : ¬rfindIdx v ',' > rfindIdx v '.')]
    have hnc : ',' ∉ v.filter (fun c => c ≠ ',') := by
      intro hm
      have h2 := (List.mem_filter.mp hm).2
      simp at h2
    show (match pyFloatOfChars (cleanNumeric (strip v)) with
        | some (PyFloat.finite q) => some q
        | _ => none)
      = coerce_float (some (v.filter (fun c => c ≠ ',')))
    rw [hA, coerce_eq_of_no_comma _ hnc]

/-- Witness for C1: the comma-later rule applied at a concrete input. -/
theorem C1_coerce_float_locale_witness :
    coerce_float (some "9.876,5".data)
      = coerce_float (some (("9.876,5".data.filter (fun c => c ≠ '.')).map commaToDot)) :=
  C1_coerce_float_locale.2.2.2.2.2.2.2.1 ("9.876,5".data)
    (by decide) (by decide) (by decide) (by decide)

/-- C10: with one or more commas and no period, every comma becomes a
decimal point before the parse: "1,234" coerces to 1.234, and a string
with two or more commas and no period coerces to null. -/
theorem C10_comma_only_coercion :
    (∀ v : List Char, ',' ∈ v → '.' ∉ v →
        coerce_float (some v) = coerce_float (some (v.map commaToDot)))
  ∧ (coerce_float (some "1,234".data) = some (617/500 : ℚ))
  ∧ (∀ v : List Char, 2 ≤ v.count ',' → '.' ∉ v → coerce_float (some v) = none) := by
  refine ⟨?_, ?_, ?_⟩
  · intro v hc hd
    have hd2 : '.' ∉ strip v := fun hm => hd ((mem_strip '.' (by decide) v).mp hm)
    have hc2 : ',' ∈ strip v := (mem_strip ',' (by decide) v).mpr hc
    have hA : cleanNumeric (strip v) = (strip v).map commaToDot := by
      unfold cleanNumeric
      rw [if_neg (fun hx => hd2 hx.2), if_pos ⟨hc2, hd2⟩]
    have hnc : ',' ∉ v.map commaToDot := comma_notMem_map_commaToDot v
    show (match pyFloatOfChars (cleanNumeric (strip v)) with
        | some (PyFloat.finite q) => some q
        | _ => none)
      = coerce_float (some (v.map commaToDot))
    rw [hA, coerce_eq_of_no_comma _ hnc]
    have he : pyFloatOfChars ((strip v).map commaToDot) = pyFloatOfChars (v.map commaToDot) := by
      unfold pyFloatOfChars
      rw [show strip ((strip v).map commaToDot) = ((strip (strip v)).map commaToDot) from
          strip_map_commaToDot (strip v),
        strip_idem, show strip (v.map commaToDot) = (strip v).map commaToDot from
          strip_map_commaToDot v]
    rw [he]
  · show some (qOfParts 1 234 3 0) = some (617/500 : ℚ)
    simp only [Option.some.injEq]
    norm_num [qOfParts, Int.toNat]
  · intro v h2 hd
    have hd2 : '.' ∉ strip v := fun hm => hd ((mem_strip '.' (by decide) v).mp hm)
    have hcnt : (strip v).count ',' = v.count ',' := count_strip ',' (by decide) v
    have hc2 : ',' ∈ strip v := List.count_pos_iff.mp (by omega)
    have hA : cleanNumeric (strip v) = (strip v).map commaToDot := by
      unfold cleanNumeric
      rw [if_neg (fun hx => hd2 hx.2), if_pos ⟨hc2, hd2⟩]
    have hdots : 2 ≤ ((strip v).map commaToDot).count '.' := by
      rw [count_dot_map_commaToDot]
      omega
    show (match pyFloatOfChars (cleanNumeric (strip v)) with
        | some (PyFloat.finite q) => some q
        | _ => none) = none
    rw [hA]
    rcases hpf : pyFloatOfChars ((strip v).map commaToDot) with _ | pf
    · rfl
    · rcases pf with q | b | _
      · exact absurd hpf (pyFloat_not_finite_of_two_dots _ hdots q)
      · rfl
      · rfl

/-- Witness for C10: the comma-replacement rule and the two-comma null
result at concrete inputs. -/
theorem C10_comma_only_coercion_witness :
    coerce_float (some "7,25".data) = coerce_float (some ("7,25".data.map commaToDot))
    ∧ coerce_float (some "1,2,3".data) = none :=
  ⟨C10_comma_only_coercion.1 ("7,25".data) (by decide) (by decide),
   C10_comma_only_coercion.2.2 ("1,2,3".data) (by decide) (by decide)⟩

/-- C2: every reading in the output has a non-null timestamp, and a data
row with fewer than two tab-separated fields, or whose first two fields do
not combine into a parseable timestamp, contributes no reading. -/
theorem C2_readings_nonnull_time (content path : String) :
    (∀ r ∈ (parse_text_file content path).readings, r.reading_time ≠ none)
  ∧ (∀ line : List Char,
      ((splitOnChar '\t' line).length < 2 ∨
        parse_datetime_parts ((splitOnChar '\t' line).getD 0 [])
          ((splitOnChar '\t' line).getD 1 []) = none) →
      rowToReading line = none) := by
  constructor
  · intro r hr
    rw [parse_text_file_readings] at hr
    rcases List.mem_filterMap.mp hr with ⟨line, _, hline⟩
    exact rowToReading_some_time line r hline
  · intro line hbad
    unfold rowToReading
    by_cases h1 : strip line = []
    · rw [if_pos h1]
    · rw [if_neg h1]
      by_cases hlen : (splitOnChar '\t' line).length < 2
      · rw [if_pos hlen]
      · rw [if_neg hlen]
        rcases hbad with hl | hdt
        · exact absurd hl hlen
        · rw [hdt]

/-- Witness for C2: a concrete file yields a reading, and its timestamp is
non-null. -/
theorem C2_readings_nonnull_time_witness :
    (⟨some ⟨2023, 5, 1, 10, 0, 0⟩, none, none, none⟩ : PiezometerReading).reading_time ≠ none :=
  (C2_readings_nonnull_time sampleTwoField "a.pvt").1
    ⟨some ⟨2023, 5, 1, 10, 0, 0⟩, none, none, none⟩ (by decide)

/-- C3 evidence: for a units row that begins with a tab (and has no
parenthesis), the source tests `startswith("\t")` on the *stripped* line,
which never holds, so the data start stays at header_index + 1 instead of
header_index + 2; the row still contributes no reading only because its
first tab-field is empty. -/
theorem C3_units_tab_row_not_skipped :
    findHeaderIdx ("date".data) (splitlinesPy sampleUnitsTab.data) = some 1
  ∧ beginsWith ((splitlinesPy sampleUnitsTab.data).getD 2 []) ("\t".data) = true
  ∧ strip ((splitlinesPy sampleUnitsTab.data).getD 2 []) ≠ []
  ∧ dataStartFrom (splitlinesPy sampleUnitsTab.data) 1 = 2
  ∧ (parse_text_file sampleUnitsTab "f.pvt").readings
      = [⟨some ⟨2023, 5, 1, 10, 0, 0⟩, some (qOfParts 1 5 1 0), none, none⟩] :=
  ⟨rfl, rfl, by decide, rfl, rfl⟩

/-- C4: only a failed file read propagates as an error; every decoded
content is processed to a result, and a thoroughly malformed content
degrades to null fields and dropped rows rather than an error. -/
theorem C4_only_io_failure_propagates :
    (∀ content path : String,
        readThenParse (Except.ok content) path = Except.ok [parse_text_file content path])
  ∧ (∀ e path : String, readThenParse (Except.error e) path = Except.error e)
  ∧ readThenParse (Except.ok sampleGarbage) "b.pvt"
      = Except.ok [⟨⟨"b", none, none, none, some "b.pvt"⟩, []⟩] :=
  ⟨fun _ _ => rfl, fun _ _ => rfl, rfl⟩

/-- C5: the reading sequence is exactly the in-order filter-map of the data
lines — output order equals file order, with no re-sorting. -/
theorem C5_order_preserved (content path : String) :
    (parse_text_file content path).readings = (dataLinesOf content).filterMap rowToReading :=
  parse_text_file_readings content path

/-- C6: metadata keys that normalize identically resolve to the same
fields with the same values; in particular "SerieNumber: 42" and
"serie number:42" both give series number "42". -/
theorem C6_key_normalization :
    (∀ (k1 k2 v1 v2 : List Char) (path : String),
        ':' ∉ k1 → ',' ∉ k1 → ':' ∉ k2 → ',' ∉ k2 → ',' ∉ v1 → ',' ∉ v2 →
        normalize_key k1 = normalize_key k2 → strip v1 = strip v2 →
        parse_metadata_line (k1 ++ ':' :: v1) path = parse_metadata_line (k2 ++ ':' :: v2) path)
  ∧ (parse_metadata_line ("SerieNumber: 42".data) "f.pvt").series_number = some "42"
  ∧ (parse_metadata_line ("serie number:42".data) "f.pvt").series_number = some "42" := by
  refine ⟨?_, rfl, rfl⟩
  intro k1 k2 v1 v2 path hk1 hk1c hk2 hk2c hv1 hv2 hkey hval
  unfold parse_metadata_line
  rw [metaValues_single_token k1 v1 hk1 hk1c hv1, metaValues_single_token k2 v2 hk2 hk2c hv2,
    hkey, hval]

/-- Witness for C6: the two spellings of the claim produce identical
metadata. -/
theorem C6_key_normalization_witness :
    parse_metadata_line ("SerieNumber".data ++ ':' :: " 42".data) "f.pvt"
      = parse_metadata_line ("serie number".data ++ ':' :: "42".data) "f.pvt" :=
  C6_key_normalization.1 ("SerieNumber".data) ("serie number".data) (" 42".data) ("42".data)
    "f.pvt" (by decide) (by decide) (by decide) (by decide) (by decide) (by decide)
    (by decide) (by decide)

/-- C7: the parse method reads only the object's header marker, returns
the object state unchanged, and a second call on the same content and path
returns the same result — it is a pure function of (content, path). -/
theorem C7_parse_pure_stateless (st : PVTParserState) (content path : String) :
    (parseMethod st content path).1 = st
  ∧ (parseMethod (parseMethod st content path).1 content path).2
      = (parseMethod st content path).2
  ∧ (parseMethod st content path).2 = [parseTextFileWith st.headerMark.data content path] :=
  ⟨rfl, rfl, rfl⟩

/-- C8: with no token normalizing to "measurepoint" in the metadata line,
the investigation point is the path's base name without extension. -/
theorem C8_fallback_stem (content path : String)
    (h : dictGet (metaValuesOf content) ("measurepoint".data) = none) :
    (parse_text_file content path).metadata.investigation_point
      = String.mk (pathStem path) := by
  rw [parse_text_file_metadata]
  show String.mk (orFalsyStr (dictGet (metaValues (metaLineOf (splitlinesPy content.data)))
      ("measurepoint".data)) (pathStem path)) = _
  rw [show metaValues (metaLineOf (splitlinesPy content.data)) = metaValuesOf content from rfl, h]
  rfl

/-- Witness for C8: a concrete file without a measure point falls back to
the stem of the path. -/
theorem C8_fallback_stem_witness :
    (parse_text_file sampleNoMeasure "dir/borehole7.pvt").metadata.investigation_point
      = String.mk (pathStem "dir/borehole7.pvt") :=
  C8_fallback_stem sampleNoMeasure "dir/borehole7.pvt" (by decide)

/-- C9: the fallback also fires when the measure-point token is present
with an empty (falsy) value: the investigation point is again the path's
stem, not the empty string. -/
theorem C9_empty_measurepoint_fallback (content path : String)
    (h : dictGet (metaValuesOf content) ("measurepoint".data) = some []) :
    (parse_text_file content path).metadata.investigation_point
      = String.mk (pathStem path) := by
  rw [parse_text_file_metadata]
  show String.mk (orFalsyStr (dictGet (metaValues (metaLineOf (splitlinesPy content.data)))
      ("measurepoint".data)) (pathStem path)) = _
  rw [show metaValues (metaLineOf (splitlinesPy content.data)) = metaValuesOf content from rfl, h]
  rfl

/-- Witness for C9: "MeasurePoint: ," stores an empty value for the key,
and the investigation point is the path's stem. -/
theorem C9_empty_measurepoint_fallback_witness :
    dictGet (metaValuesOf sampleEmptyMeasure) ("measurepoint".data) = some []
  ∧ (parse_text_file sampleEmptyMeasure "p/x.pvt").metadata.investigation_point
      = String.mk (pathStem "p/x.pvt") :=
  ⟨by decide, C9_empty_measurepoint_fallback sampleEmptyMeasure "p/x.pvt" (by decide)⟩

end GeoPVT
